import Mathlib

/-!
Verification of the safe-extraction engine of `codeclysm/extract`.

This file contains a shallow embedding of the Go source (extractor.go,
cancelable_reader.go) into Lean 4, and theorems settling the specification
claims about it.  Paths follow POSIX semantics (`os.PathSeparator = '/'`,
the build platform of the repository's tests).  `os.FileMode` is a `uint32`
bit set, modelled as `Nat` with an explicit 32-bit bitwise or/and.
All definitions are structurally recursive so that concrete runs can be
evaluated by `decide`.
-/

set_option maxHeartbeats 1000000

/-! ## String helpers (structural replacements for Go strings/filepath ops) -/

/-- Boolean list-level check that `p` is an initial segment of `s`
(Go `strings.HasPrefix` at the character level). -/
def listIsPref : List Char → List Char → Bool
  | [], _ => true
  | _ :: _, [] => false
  | a :: as, b :: bs => a = b && listIsPref as bs

/-- Go `strings.HasPrefix s pre`. -/
def startsWithStr (s pre : String) : Bool :=
  listIsPref pre.data s.data

/-- Go `strings.HasSuffix s suf`. -/
def endsWithStr (s suf : String) : Bool :=
  listIsPref suf.data.reverse s.data.reverse

/-- Split a character list on a separator character; mirrors
Go `strings.Split` (components include empties). -/
def splitOnChar (c : Char) : List Char → List (List Char)
  | [] => [[]]
  | x :: xs =>
    if x = c then [] :: splitOnChar c xs
    else
      match splitOnChar c xs with
      | [] => [[x]]
      | g :: gs => (x :: g) :: gs

/-- Join character-list components with a separator character. -/
def joinSep (c : Char) : List (List Char) → List Char
  | [] => []
  | [g] => g
  | g :: g2 :: gs => g ++ c :: joinSep c (g2 :: gs)

/-! ## filepath.Clean / Join / Dir (Go path/filepath, POSIX rules) -/

/-- One step of the component-wise cleaning loop of Go `filepath.Clean`:
skip empty and `.` components, let `..` drop the previous component
(or vanish at a rooted start, or accumulate when unrooted).
The accumulator holds the output components in reverse order. -/
def cleanStep (rooted : Bool) (acc : List (List Char)) (c : List Char) : List (List Char) :=
  if c = [] ∨ c = ['.'] then acc
  else if c = ['.', '.'] then
    match acc with
    | [] => if rooted then [] else [['.', '.']]
    | a :: rest => if a = ['.', '.'] then ['.', '.'] :: a :: rest else rest
  else c :: acc

/-- Go `filepath.Clean` for POSIX paths: collapse `//`, `.` and `..`
segments lexically. -/
def pathClean (path : String) : String :=
  if path = "" then "."
  else
    let cs := path.data
    let rooted : Bool := match cs with | '/' :: _ => true | _ => false
    let comps := (splitOnChar '/' cs).foldl (cleanStep rooted) []
    let body := joinSep '/' comps.reverse
    if rooted then ⟨'/' :: body⟩
    else if body = [] then "." else ⟨body⟩

/-- Go `filepath.Join(a, b)`: drop leading empty elements, join the rest
with `/` and Clean the result. -/
def filepathJoin (a b : String) : String :=
  if a ≠ "" then pathClean (a ++ "/" ++ b)
  else if b ≠ "" then pathClean b
  else ""

/-- Go `filepath.Dir`: everything up to and including the final separator,
Cleaned (`"."` when there is no separator). -/
def filepathDir (path : String) : String :=
  pathClean ⟨(path.data.reverse.dropWhile (· ≠ '/')).reverse⟩

/-! ## safeJoin (extractor.go, the PathSafetyGuard) -/

/-- Error text produced by `safeJoin` (the Go code formats both the
normalized parent and the candidate into the message). -/
def safeJoinMsg (parent subdir : String) : String :=
  "unsafe path join: " ++ parent ++ " with " ++ subdir

/-- Go `safeJoin(parent, subdir)`: the lexical join must keep the parent
(normalized to end with the separator) as a string prefix, else error. -/
def safeJoin (parent subdir : String) : Except String String :=
  let res := filepathJoin parent subdir
  let parent2 := if endsWithStr parent "/" then parent else parent ++ "/"
  if startsWithStr res parent2 then Except.ok res
  else Except.error (safeJoinMsg parent2 subdir)

deriving instance DecidableEq for Except

/-- Whether an `Except` is an error. -/
def isErr : Except String String → Bool
  | .error _ => true
  | .ok _ => false

/-- The spec-side normalization of a root: guaranteed trailing separator. -/
def normRoot (root : String) : String :=
  if endsWithStr root "/" then root else root ++ "/"

/-- Go `strings.Replace(path, "\\", "/", -1)`: every backslash becomes a
forward slash (single-character pattern, so a character map). -/
def zipNormName (s : String) : String :=
  ⟨s.data.map (fun c => if c = '\\' then '/' else c)⟩

/-! ## File modes (os.FileMode is a uint32 bit set) -/

/-- Fixed-fuel bitwise or on 32-bit naturals (structural, so the kernel
can evaluate it; Go `|` on os.FileMode). -/
def orBits : Nat → Nat → Nat → Nat
  | 0, _, _ => 0
  | fuel + 1, a, b =>
    (if a % 2 = 1 ∨ b % 2 = 1 then 1 else 0) + 2 * orBits fuel (a / 2) (b / 2)

/-- Fixed-fuel bitwise and on 32-bit naturals (Go `&` on os.FileMode). -/
def andBits : Nat → Nat → Nat → Nat
  | 0, _, _ => 0
  | fuel + 1, a, b =>
    (if a % 2 = 1 ∧ b % 2 = 1 then 1 else 0) + 2 * andBits fuel (a / 2) (b / 2)

/-- Bitwise or of two os.FileMode values. -/
def fmOr (a b : Nat) : Nat := orBits 32 a b

/-- Bitwise and of two os.FileMode values. -/
def fmAnd (a b : Nat) : Nat := andBits 32 a b

/-- Go `os.ModeDir` (bit 31 of os.FileMode). -/
def modeDir : Nat := 2147483648

/-- Go `os.ModeSymlink` (bit 27 of os.FileMode). -/
def modeSymlink : Nat := 134217728

/-! ## Filesystem capability: journal of calls plus injected behavior -/

/-- One call made against the injected `FS` interface.  `openFile` in this
codebase is always called with `O_CREATE|O_TRUNC|O_WRONLY`, so only the
name and permission are recorded. -/
inductive FSOp where
  | mkdirAll (path : String) (perm : Nat)
  | openFile (name : String) (perm : Nat)
  | link (oldname newname : String)
  | symlink (oldname newname : String)
  | remove (path : String)
  | stat (name : String)
  | chmod (name : String) (mode : Nat)
  deriving Repr, DecidableEq

/-- Injected success/failure behavior of the filesystem capability.
`Remove` errors are always discarded by the code, so no flag is needed
for it; `statExists` is the `err == nil` outcome of `FS.Stat`;
`closeOk` is the `Close` of the placeholder file handle. -/
structure FSBehavior where
  mkdirAllOk : String → Nat → Bool
  openFileOk : String → Nat → Bool
  closeOk : String → Bool
  linkOk : String → String → Bool
  symlinkOk : String → String → Bool
  statExists : String → Bool
  chmodOk : String → Nat → Bool

/-- The all-succeeding behavior (the shape of the test suite's LoggingFS). -/
def allOk : FSBehavior where
  mkdirAllOk := fun _ _ => true
  openFileOk := fun _ _ => true
  closeOk := fun _ => true
  linkOk := fun _ _ => true
  symlinkOk := fun _ _ => true
  statExists := fun _ => false
  chmodOk := fun _ _ => true

/-- Every mutating call of the behavior succeeds (Stat is left free). -/
def AllSucc (b : FSBehavior) : Prop :=
  (∀ p m, b.mkdirAllOk p m = true) ∧ (∀ p m, b.openFileOk p m = true) ∧
  (∀ p, b.closeOk p = true) ∧ (∀ o n, b.linkOk o n = true) ∧
  (∀ o n, b.symlinkOk o n = true) ∧ (∀ p m, b.chmodOk p m = true)

/-- Result of one extraction call: the ordered journal of filesystem calls
made, and the error returned (none on success). -/
structure ExtractResult where
  journal : List FSOp
  error : Option String
  deriving Repr, DecidableEq

/-- A pending link queued during the entry pass (Go `type link struct`):
`Name` is the link target handed to `FS.Link`/`FS.Symlink`, `Path` the
output path. -/
structure link where
  Name : String
  Path : String
  deriving Repr, DecidableEq

/-- Output of one entry step / of the whole entry pass: filesystem calls
made, hard links and symbolic links queued, and a fatal error if any.
The Go loop appends to its journal and queues; concatenating the deltas
of successive steps reproduces them. -/
structure PassOut where
  ops : List FSOp
  links : List link
  symlinks : List link
  err : Option String
  deriving Repr, DecidableEq

/-- The step output of an entry that is skipped (empty rename, unsafe
path, unhandled type flag). -/
def skipStep : PassOut := ⟨[], [], [], none⟩

/-- Apply the optional caller-supplied Renamer (`nil` leaves the name). -/
def applyRename (ren : Option (String → String)) (s : String) : String :=
  match ren with
  | none => s
  | some f => f s

/-! ## Extractor methods -/

namespace Extractor

/-- Go `Extractor.copy(ctx, path, mode, src)`: make the parent directory
(with `|os.ModeDir|0100`), remove any existing object, open the file
truncate-create-write, then stream through `copyCancel` (which fails at
once when the signal is already raised).  Returns the calls made and the
error, if any. -/
def copy (b : FSBehavior) (cancelled : Bool) (path : String) (mode : Nat) :
    List FSOp × Option String :=
  let dirMode := fmOr (fmOr mode modeDir) 0o100
  let d := filepathDir path
  if !b.mkdirAllOk d dirMode then ([FSOp.mkdirAll d dirMode], some "MkdirAll")
  else
    let ops := [FSOp.mkdirAll d dirMode, FSOp.remove path, FSOp.openFile path mode]
    if !b.openFileOk path mode then (ops, some "OpenFile")
    else if cancelled then (ops, some "interrupted")
    else (ops, none)

/-- One iteration of the tar entry loop (extractor.go, `Tar`, the
`switch header.Typeflag` body after rename and safeJoin). -/
inductive TarType where
  | dir | reg | regA | hardlink | symlink | other
  deriving Repr, DecidableEq

/-- The fields of a `tar.Header` that the extractor reads.  `fileMode` is
the value of `header.FileInfo().Mode()`. -/
structure TarHeader where
  name : String
  linkname : String
  typeflag : TarType
  fileMode : Nat
  deriving Repr, DecidableEq

/-- One entry of the tar entry pass: rename, skip empties, safety-join,
then dispatch on the type flag. -/
def tarStep (b : FSBehavior) (cancelled : Bool) (location : String)
    (ren : Option (String → String)) (h : TarHeader) : PassOut :=
  let path0 := applyRename ren h.name
  if path0 = "" then skipStep
  else
    match safeJoin location path0 with
    | .error _ => skipStep
    | .ok path =>
      match h.typeflag with
      | .dir =>
        if b.mkdirAllOk path h.fileMode then ⟨[FSOp.mkdirAll path h.fileMode], [], [], none⟩
        else ⟨[FSOp.mkdirAll path h.fileMode], [], [], some ("Create directory " ++ path)⟩
      | .reg | .regA =>
        let ce := copy b cancelled path h.fileMode
        ⟨ce.1, [], [], ce.2.map (fun _ => "Create file " ++ path)⟩
      | .hardlink =>
        let name0 := applyRename ren h.linkname
        match safeJoin location name0 with
        | .error _ => skipStep
        | .ok name => ⟨[], [⟨name, path⟩], [], none⟩
      | .symlink => ⟨[], [], [⟨h.linkname, path⟩], none⟩
      | .other => skipStep

/-- The tar entry pass: the context is polled before every `tr.Next`,
including the one that reports EOF, then each entry is stepped; a step
error aborts the pass. -/
def tarEntryPass (b : FSBehavior) (cancelled : Bool) (location : String)
    (ren : Option (String → String)) : List TarHeader → PassOut
  | [] => if cancelled then ⟨[], [], [], some "interrupted"⟩ else ⟨[], [], [], none⟩
  | h :: rest =>
    if cancelled then ⟨[], [], [], some "interrupted"⟩
    else
      let s := tarStep b cancelled location ren h
      match s.err with
      | some e => ⟨s.ops, s.links, s.symlinks, some e⟩
      | none =>
        let r := tarEntryPass b cancelled location ren rest
        ⟨s.ops ++ r.ops, s.links ++ r.links, s.symlinks ++ r.symlinks, r.err⟩

/-- The hard-link pass of `Tar`: poll the context, remove whatever is at
the output path (error ignored), then `FS.Link`; a failure is fatal. -/
def hardLinkPass (b : FSBehavior) (cancelled : Bool) :
    List link → List FSOp × Option String
  | [] => ([], none)
  | l :: rest =>
    if cancelled then ([], some "interrupted")
    else
      let ops := [FSOp.remove l.Path, FSOp.link l.Name l.Path]
      if b.linkOk l.Name l.Path then
        let r := hardLinkPass b cancelled rest
        (ops ++ r.1, r.2)
      else (ops, some ("Create link " ++ l.Path))

/-- Placeholder phase of `extractSymlinks`: for each pending symbolic
link, remove anything at its output path and create (then close) an
empty regular file there with mode 0666; failures are fatal. -/
def placeholderPass (b : FSBehavior) (cancelled : Bool) :
    List link → List FSOp × Option String
  | [] => ([], none)
  | l :: rest =>
    if cancelled then ([], some "interrupted")
    else
      let ops := [FSOp.remove l.Path, FSOp.openFile l.Path 0o666]
      if !b.openFileOk l.Path 0o666 then
        (ops, some ("creating symlink placeholder " ++ l.Path))
      else if !b.closeOk l.Path then
        (ops, some ("creating symlink placeholder " ++ l.Path))
      else
        let r := placeholderPass b cancelled rest
        (ops ++ r.1, r.2)

/-- Resolution phase of `extractSymlinks`: remove the placeholder and
create the real symbolic link, target passed verbatim; failures fatal. -/
def symlinkPass (b : FSBehavior) (cancelled : Bool) :
    List link → List FSOp × Option String
  | [] => ([], none)
  | l :: rest =>
    if cancelled then ([], some "interrupted")
    else
      let ops := [FSOp.remove l.Path, FSOp.symlink l.Name l.Path]
      if b.symlinkOk l.Name l.Path then
        let r := symlinkPass b cancelled rest
        (ops ++ r.1, r.2)
      else (ops, some ("Create link " ++ l.Path))

/-- Go `Extractor.extractSymlinks`: placeholder phase over all pending
symbolic links, then the resolution phase. -/
def extractSymlinks (b : FSBehavior) (cancelled : Bool) (ls : List link) :
    List FSOp × Option String :=
  let ph := placeholderPass b cancelled ls
  match ph.2 with
  | some e => (ph.1, some e)
  | none =>
    let sl := symlinkPass b cancelled ls
    (ph.1 ++ sl.1, sl.2)

/-- Go `Extractor.Tar`: entry pass, hard-link pass, then the two-phase
symbolic-link resolution. -/
def Tar (b : FSBehavior) (cancelled : Bool) (location : String)
    (ren : Option (String → String)) (hs : List TarHeader) : ExtractResult :=
  let po := tarEntryPass b cancelled location ren hs
  match po.err with
  | some e => ⟨po.ops, some e⟩
  | none =>
    let hl := hardLinkPass b cancelled po.links
    match hl.2 with
    | some e => ⟨po.ops ++ hl.1, some e⟩
    | none =>
      let es := extractSymlinks b cancelled po.symlinks
      ⟨po.ops ++ hl.1 ++ es.1, es.2⟩

/-- The fields of a `zip.FileHeader` the extractor reads: the raw stored
name, the value of `header.FileInfo().Mode()`, and the entry content
(which for a symbolic-link entry is the link target text). -/
structure ZipHeader where
  name : String
  fileMode : Nat
  content : String
  deriving Repr, DecidableEq

/-- One entry of the zip entry loop: normalize backslashes (remembering a
trailing backslash as "actually a directory"), rename, skip empties,
safety-join, then the directory / symlink / regular-file dispatch. -/
def zipStep (b : FSBehavior) (cancelled : Bool) (location : String)
    (ren : Option (String → String)) (h : ZipHeader) : PassOut :=
  let forceDir := endsWithStr h.name "\\"
  let p1 := applyRename ren (zipNormName h.name)
  if p1 = "" then skipStep
  else
    match safeJoin location p1 with
    | .error _ => skipStep
    | .ok path =>
      if fmAnd h.fileMode modeDir ≠ 0 ∨ forceDir = true then
        let dirMode := fmOr (fmOr h.fileMode modeDir) 0o100
        if b.statExists path then
          if b.chmodOk path dirMode then ⟨[FSOp.stat path, FSOp.chmod path dirMode], [], [], none⟩
          else ⟨[FSOp.stat path, FSOp.chmod path dirMode], [], [],
                some ("Set permissions " ++ path)⟩
        else
          if b.mkdirAllOk path dirMode then
            ⟨[FSOp.stat path, FSOp.mkdirAll path dirMode], [], [], none⟩
          else ⟨[FSOp.stat path, FSOp.mkdirAll path dirMode], [], [],
                some ("Create directory " ++ path)⟩
      else if fmAnd h.fileMode modeSymlink ≠ 0 then
        ⟨[], [], [⟨h.content, path⟩], none⟩
      else
        let ce := copy b cancelled path h.fileMode
        ⟨ce.1, [], [], ce.2.map (fun _ => "Create file " ++ path)⟩

/-- The zip entry loop: the context is polled once per entry of the
central directory (an empty archive polls nothing). -/
def zipEntryPass (b : FSBehavior) (cancelled : Bool) (location : String)
    (ren : Option (String → String)) : List ZipHeader → PassOut
  | [] => ⟨[], [], [], none⟩
  | h :: rest =>
    if cancelled then ⟨[], [], [], some "interrupted"⟩
    else
      let s := zipStep b cancelled location ren h
      match s.err with
      | some e => ⟨s.ops, s.links, s.symlinks, some e⟩
      | none =>
        let r := zipEntryPass b cancelled location ren rest
        ⟨s.ops ++ r.ops, s.links ++ r.links, s.symlinks ++ r.symlinks, r.err⟩

/-- Go `Extractor.Zip`.  Zip needs random access: a seekable stream is
used in place, otherwise the whole body is buffered through `copyCancel`
first.  `parse` is the outcome of `zip.NewReader` on the full stream
(none = not a valid zip).  When the stream is not seekable and the
signal is already raised, the buffering loop stops at its first read and
`zip.NewReader` runs on an empty buffer, which always fails (a zip needs
at least its 22-byte end-of-central-directory record). -/
def Zip (b : FSBehavior) (cancelled seekable : Bool)
    (parse : Option (List ZipHeader)) (location : String)
    (ren : Option (String → String)) : ExtractResult :=
  let archive := if seekable then parse else if cancelled then none else parse
  match archive with
  | none => ⟨[], some "Read the zip file"⟩
  | some hs =>
    let po := zipEntryPass b cancelled location ren hs
    match po.err with
    | some e => ⟨po.ops, some e⟩
    | none =>
      let es := extractSymlinks b cancelled po.symlinks
      ⟨po.ops ++ es.1, es.2⟩

/-- The decompressed stream seen by the dispatcher after unwrapping gz:
either an inner tar container or a single opaque file. -/
inductive InnerStream where
  | tarStream (hs : List TarHeader)
  | file
  deriving Repr

/-- Go `Extractor.Gz`: unwrap the gzip header (fatal on failure), re-sniff
the inner stream (fatal on a read error), then either recurse into `Tar`
or copy the single decompressed file to `location` with mode 0666. -/
def Gz (b : FSBehavior) (cancelled : Bool) (gzipHeaderOk : Bool)
    (innerMatchErr : Option String) (inner : InnerStream) (location : String)
    (ren : Option (String → String)) : ExtractResult :=
  if !gzipHeaderOk then ⟨[], some "Gunzip"⟩
  else
    match innerMatchErr with
    | some e => ⟨[], some e⟩
    | none =>
      match inner with
      | .tarStream hs => Tar b cancelled location ren hs
      | .file =>
        let ce := copy b cancelled location 0o666
        ⟨ce.1, ce.2⟩

/-- The extension of `filetype/types.Unknown` (h2non/filetype,
types/defaults.go: `NewType("unknown", "")`). -/
def typesUnknownExt : String := "unknown"

/-- Go `match(r)`: read up to 512 bytes; a non-EOF read error is returned
together with `types.Unknown`; otherwise classification runs on the
buffer.  Result: (extension of the detected kind, error). -/
def matchGo (readErr : Option String) (detected : String) : String × Option String :=
  match readErr with
  | some e => (typesUnknownExt, some e)
  | none => (detected, none)

/-- The extractor `Archive` would dispatch to. -/
inductive ArchiveRoute where
  | zipR | gzR | bz2R | xzR | zstdR | tarR
  deriving Repr, DecidableEq

/-- Go `Extractor.Archive`, detection and dispatch: the result of
`errors.Annotatef(err, "Detect archive type")` is discarded (there is no
`return`), so control always falls through to the switch on the detected
extension. -/
def Archive (readErr : Option String) (detected : String) :
    Except String ArchiveRoute :=
  let (ext, _) := matchGo readErr detected
  match ext with
  | "zip" => .ok .zipR
  | "gz" => .ok .gzR
  | "bz2" => .ok .bz2R
  | "xz" => .ok .xzR
  | "zst" => .ok .zstdR
  | "tar" => .ok .tarR
  | other => .error ("Not a supported archive: " ++ other)

end Extractor

/-! ## cancelableReader / copyCancel (cancelable_reader.go) -/

/-- The read loop of `io.Copy` over a `cancelableReader`: before each read
(the `i`-th), the cancellation signal is polled; if raised the copy stops
with "interrupted", else the next chunk (of the given size) is delivered,
or end-of-data if none remain.  Returns the byte count written and the
error. -/
def copyCancelReads (raisedAt : Nat → Bool) : Nat → Nat → List Nat → Nat × Option String
  | i, written, [] =>
    if raisedAt i then (written, some "interrupted") else (written, none)
  | i, written, c :: rest =>
    if raisedAt i then (written, some "interrupted")
    else copyCancelReads raisedAt (i + 1) (written + c) rest

/-- Go `copyCancel(dst, src, cancel)`: copy all chunks of the source,
polling the signal before every read. -/
def copyCancel (raisedAt : Nat → Bool) (chunks : List Nat) : Nat × Option String :=
  copyCancelReads raisedAt 0 0 chunks


/-! ## Derived notions used by the claim statements -/

/-- An entry of a tar archive that the PathSafetyGuard rejects: its renamed
name is nonempty but `safeJoin` against the destination fails. -/
def tarEntryUnsafe (loc : String) (ren : Option (String → String))
    (h : Extractor.TarHeader) : Bool :=
  (applyRename ren h.name != "") && isErr (safeJoin loc (applyRename ren h.name))

/-- The zip counterpart: the safety check runs on the rename of the
backslash-normalized stored name. -/
def zipEntryUnsafe (loc : String) (ren : Option (String → String))
    (h : Extractor.ZipHeader) : Bool :=
  (applyRename ren (zipNormName h.name) != "") &&
    isErr (safeJoin loc (applyRename ren (zipNormName h.name)))

/-- The calls the hard-link pass makes for a queue of pending hard links:
remove the output path, then `FS.Link`. -/
def hardLinkOps : List link → List FSOp
  | [] => []
  | l :: rest => FSOp.remove l.Path :: FSOp.link l.Name l.Path :: hardLinkOps rest

/-- The calls of the placeholder phase: remove the output path, then
create the empty 0666 regular file there. -/
def placeholderOps : List link → List FSOp
  | [] => []
  | l :: rest => FSOp.remove l.Path :: FSOp.openFile l.Path 0o666 :: placeholderOps rest

/-- The calls of the symlink-resolution phase: remove the placeholder,
then create the real symbolic link with the verbatim target. -/
def symlinkOps : List link → List FSOp
  | [] => []
  | l :: rest => FSOp.remove l.Path :: FSOp.symlink l.Name l.Path :: symlinkOps rest

/-- Whether a filesystem call is a link creation (hard or symbolic). -/
def isLinkOp : FSOp → Bool
  | .link _ _ => true
  | .symlink _ _ => true
  | _ => false

/-- Whether a filesystem call is a symbolic-link creation. -/
def isSymlinkOp : FSOp → Bool
  | .symlink _ _ => true
  | _ => false

/-! ## Shared lemmas -/

/-- The all-succeeding behavior satisfies `AllSucc`. -/
theorem allOk_allSucc : AllSucc allOk :=
  ⟨fun _ _ => rfl, fun _ _ => rfl, fun _ => rfl, fun _ _ => rfl, fun _ _ => rfl,
   fun _ _ => rfl⟩

/-! ## C1: the safeJoin contract -/

/-- C1: safeJoin returns the lexically joined, cleaned path exactly when
that joined path has the root, normalized to end with the separator, as a
string prefix, and fails otherwise; with root `/`, candidates whose `..`
segments collapse back to `/` (`..`, `../pathpath`) are accepted, while
for the deeper roots of the test suite they are rejected. -/
theorem safeJoin_contract :
    (∀ root cand, startsWithStr (filepathJoin root cand) (normRoot root) = true →
        safeJoin root cand = Except.ok (filepathJoin root cand)) ∧
    (∀ root cand, startsWithStr (filepathJoin root cand) (normRoot root) = false →
        safeJoin root cand = Except.error (safeJoinMsg (normRoot root) cand)) ∧
    safeJoin "/" ".." = Except.ok "/" ∧
    safeJoin "/" "../pathpath" = Except.ok "/pathpath" ∧
    isErr (safeJoin "/path" "..") = true ∧
    isErr (safeJoin "/path" "../pathpath") = true ∧
    isErr (safeJoin "/path/" "../pathpath") = true ∧
    isErr (safeJoin "/path/subdir" "..") = true ∧
    safeJoin "/path" "more/path" = Except.ok "/path/more/path" := by
  refine ⟨?_, ?_, by decide, by decide, by decide, by decide, by decide, by decide,
    by decide⟩
  · intro root cand hpre
    simp only [safeJoin, normRoot] at hpre ⊢
    rw [hpre]
    simp
  · intro root cand hpre
    simp only [safeJoin, normRoot] at hpre ⊢
    rw [hpre]
    simp

/-- Witness for C1: a concrete safe join, accepted with the cleaned path. -/
theorem safeJoin_contract_witness :
    startsWithStr (filepathJoin "/path" "more/path") (normRoot "/path") = true ∧
    safeJoin "/path" "more/path" = Except.ok (filepathJoin "/path" "more/path") :=
  ⟨by decide, safeJoin_contract.1 "/path" "more/path" (by decide)⟩

/-! ## C2: unsafe entries are skipped without filesystem effect -/

/-- A tar entry rejected by the guard contributes nothing to the pass. -/
theorem tarStep_of_rejected (b : FSBehavior) (c : Bool) (loc : String)
    (ren : Option (String → String)) (h : Extractor.TarHeader)
    (hu : tarEntryUnsafe loc ren h = true) :
    Extractor.tarStep b c loc ren h = skipStep := by
  simp only [tarEntryUnsafe, Bool.and_eq_true, bne_iff_ne, ne_eq] at hu
  obtain ⟨hne, herr⟩ := hu
  unfold Extractor.tarStep
  rcases hsj : safeJoin loc (applyRename ren h.name) with e | v
  · simp [hne, hsj]
  · rw [hsj] at herr
    simp [isErr] at herr

/-- A zip entry rejected by the guard contributes nothing to the pass. -/
theorem zipStep_of_rejected (b : FSBehavior) (c : Bool) (loc : String)
    (ren : Option (String → String)) (h : Extractor.ZipHeader)
    (hu : zipEntryUnsafe loc ren h = true) :
    Extractor.zipStep b c loc ren h = skipStep := by
  simp only [zipEntryUnsafe, Bool.and_eq_true, bne_iff_ne, ne_eq] at hu
  obtain ⟨hne, herr⟩ := hu
  unfold Extractor.zipStep
  rcases hsj : safeJoin loc (applyRename ren (zipNormName h.name)) with e | v
  · simp [hne, hsj]
  · rw [hsj] at herr
    simp [isErr] at herr

/-- Filtering guard-rejected entries does not change the tar entry pass. -/
theorem tarEntryPass_filter (b : FSBehavior) (c : Bool) (loc : String)
    (ren : Option (String → String)) (hs : List Extractor.TarHeader) :
    Extractor.tarEntryPass b c loc ren (hs.filter (fun h => !tarEntryUnsafe loc ren h)) =
      Extractor.tarEntryPass b c loc ren hs := by
  induction hs with
  | nil => rfl
  | cons h t ih =>
    by_cases hu : tarEntryUnsafe loc ren h = true
    · rw [List.filter_cons_of_neg (by simp [hu])]
      rw [ih]
      by_cases hc : c = true
      · subst hc
        cases t <;> rfl
      · replace hc : c = false := by simpa using hc
        subst hc
        conv_rhs => rw [Extractor.tarEntryPass]
        rw [tarStep_of_rejected b false loc ren h hu]
        simp [skipStep]
    · rw [List.filter_cons_of_pos (by simp [hu])]
      by_cases hc : c = true
      · subst hc
        rfl
      · replace hc : c = false := by simpa using hc
        subst hc
        conv_lhs => rw [Extractor.tarEntryPass]
        conv_rhs => rw [Extractor.tarEntryPass]
        rw [ih]

/-- Filtering guard-rejected entries does not change the zip entry pass
(with no cancellation: the zip loop polls per listed entry). -/
theorem zipEntryPass_filter (b : FSBehavior) (loc : String)
    (ren : Option (String → String)) (hs : List Extractor.ZipHeader) :
    Extractor.zipEntryPass b false loc ren (hs.filter (fun h => !zipEntryUnsafe loc ren h)) =
      Extractor.zipEntryPass b false loc ren hs := by
  induction hs with
  | nil => rfl
  | cons h t ih =>
    by_cases hu : zipEntryUnsafe loc ren h = true
    · rw [List.filter_cons_of_neg (by simp [hu])]
      rw [ih]
      conv_rhs => rw [Extractor.zipEntryPass]
      rw [zipStep_of_rejected b false loc ren h hu]
      simp [skipStep]
    · rw [List.filter_cons_of_pos (by simp [hu])]
      conv_lhs => rw [Extractor.zipEntryPass]
      conv_rhs => rw [Extractor.zipEntryPass]
      rw [ih]

/-- C2: entries whose renamed path fails the guard cause no filesystem
call and do not fail the extraction: tar and zip extraction coincide with
extraction of the archive with those entries removed, and the step of such
an entry is the empty step. -/
theorem unsafe_entries_skipped :
    (∀ b c loc ren hs,
        Extractor.Tar b c loc ren hs =
          Extractor.Tar b c loc ren (hs.filter (fun h => !tarEntryUnsafe loc ren h))) ∧
    (∀ b sk parse loc ren,
        Extractor.Zip b false sk parse loc ren =
          Extractor.Zip b false sk
            (parse.map (List.filter (fun h => !zipEntryUnsafe loc ren h))) loc ren) ∧
    (∀ b c loc ren h, tarEntryUnsafe loc ren h = true →
        Extractor.tarStep b c loc ren h = skipStep) ∧
    (∀ b c loc ren h, zipEntryUnsafe loc ren h = true →
        Extractor.zipStep b c loc ren h = skipStep) := by
  refine ⟨?_, ?_, tarStep_of_rejected, zipStep_of_rejected⟩
  · intro b c loc ren hs
    unfold Extractor.Tar
    rw [tarEntryPass_filter]
  · intro b sk parse loc ren
    unfold Extractor.Zip
    cases parse with
    | none => cases sk <;> rfl
    | some hs =>
      cases sk <;> simp <;> rw [zipEntryPass_filter]

/-- Witness for C2: the evil-generator traversal entry is rejected and
stepped to the empty step. -/
theorem unsafe_entries_skipped_witness :
    tarEntryUnsafe "/tmp/test" none
      ⟨"../../../../../../../../../../tmp/evil.txt", "", Extractor.TarType.reg, 0o666⟩ = true ∧
    Extractor.tarStep allOk false "/tmp/test" none
      ⟨"../../../../../../../../../../tmp/evil.txt", "", Extractor.TarType.reg, 0o666⟩ = skipStep :=
  ⟨by decide,
   unsafe_entries_skipped.2.2.1 allOk false "/tmp/test" none
     ⟨"../../../../../../../../../../tmp/evil.txt", "", Extractor.TarType.reg, 0o666⟩
     (by decide)⟩

/-! ## C3: the two-phase link protocol -/

/-- With successful links, the hard-link pass performs exactly remove-then-
link for each pending hard link, in order. -/
theorem hardLinkPass_ok (b : FSBehavior) (hl : ∀ o n, b.linkOk o n = true)
    (ls : List link) :
    Extractor.hardLinkPass b false ls = (hardLinkOps ls, none) := by
  induction ls with
  | nil => rfl
  | cons l t ih => simp [Extractor.hardLinkPass, hl, hardLinkOps, ih]

/-- With successful creates, the placeholder phase performs exactly
remove-then-create-0666 for each pending symbolic link, in order. -/
theorem placeholderPass_ok (b : FSBehavior) (ho : ∀ p m, b.openFileOk p m = true)
    (hc : ∀ p, b.closeOk p = true) (ls : List link) :
    Extractor.placeholderPass b false ls = (placeholderOps ls, none) := by
  induction ls with
  | nil => rfl
  | cons l t ih => simp [Extractor.placeholderPass, ho, hc, placeholderOps, ih]

/-- With successful symlink creation, the resolution phase performs exactly
remove-then-symlink, with the verbatim recorded target, in order. -/
theorem symlinkPass_ok (b : FSBehavior) (hsym : ∀ o n, b.symlinkOk o n = true)
    (ls : List link) :
    Extractor.symlinkPass b false ls = (symlinkOps ls, none) := by
  induction ls with
  | nil => rfl
  | cons l t ih => simp [Extractor.symlinkPass, hsym, symlinkOps, ih]

/-- extractSymlinks is the placeholder phase followed by the resolution
phase over the same queue. -/
theorem extractSymlinks_ok (b : FSBehavior) (ho : ∀ p m, b.openFileOk p m = true)
    (hc : ∀ p, b.closeOk p = true) (hsym : ∀ o n, b.symlinkOk o n = true)
    (ls : List link) :
    Extractor.extractSymlinks b false ls = (placeholderOps ls ++ symlinkOps ls, none) := by
  unfold Extractor.extractSymlinks
  rw [placeholderPass_ok b ho hc, symlinkPass_ok b hsym]

/-- With directory creation and file opening succeeding, `copy` without
cancellation performs mkdir-remove-open and reports no error. -/
theorem copy_ok (b : FSBehavior) (path : String) (mode : Nat)
    (h1 : ∀ p m, b.mkdirAllOk p m = true) (h2 : ∀ p m, b.openFileOk p m = true) :
    Extractor.copy b false path mode =
      ([FSOp.mkdirAll (filepathDir path) (fmOr (fmOr mode modeDir) 0o100),
        FSOp.remove path, FSOp.openFile path mode], none) := by
  unfold Extractor.copy
  simp [h1, h2]

/-- The copy helper never emits a link or symlink call. -/
theorem copy_no_linkops (b : FSBehavior) (c : Bool) (path : String) (mode : Nat) :
    ((Extractor.copy b c path mode).1.all fun o => !isLinkOp o) = true := by
  unfold Extractor.copy
  cases hmk : b.mkdirAllOk (filepathDir path) (fmOr (fmOr mode modeDir) 0o100) <;>
    cases hop : b.openFileOk path mode <;> cases c <;> simp [hmk, hop, isLinkOp]

/-- Under an all-succeeding filesystem, no tar entry step fails. -/
theorem tarStep_err_none (b : FSBehavior) (hb : AllSucc b) (loc : String)
    (ren : Option (String → String)) (h : Extractor.TarHeader) :
    (Extractor.tarStep b false loc ren h).err = none := by
  obtain ⟨h1, h2, _, _, _, _⟩ := hb
  unfold Extractor.tarStep
  by_cases hp : applyRename ren h.name = ""
  · simp [hp, skipStep]
  · rcases hsj : safeJoin loc (applyRename ren h.name) with e | p
    · simp [hp, hsj, skipStep]
    · cases hty : h.typeflag
      · simp [hp, hsj, hty, h1]
      · simp [hp, hsj, hty, copy_ok b p h.fileMode h1 h2]
      · simp [hp, hsj, hty, copy_ok b p h.fileMode h1 h2]
      · rcases hsj2 : safeJoin loc (applyRename ren h.linkname) with e2 | n <;>
          simp [hp, hsj, hty, hsj2, skipStep]
      · simp [hp, hsj, hty]
      · simp [hp, hsj, hty, skipStep]

/-- Under an all-succeeding filesystem, no zip entry step fails. -/
theorem zipStep_err_none (b : FSBehavior) (hb : AllSucc b) (loc : String)
    (ren : Option (String → String)) (h : Extractor.ZipHeader) :
    (Extractor.zipStep b false loc ren h).err = none := by
  obtain ⟨h1, h2, _, _, _, h6⟩ := hb
  unfold Extractor.zipStep
  by_cases hp : applyRename ren (zipNormName h.name) = ""
  · simp [hp, skipStep]
  · rcases hsj : safeJoin loc (applyRename ren (zipNormName h.name)) with e | p
    · simp [hp, hsj, skipStep]
    · by_cases hdir : fmAnd h.fileMode modeDir ≠ 0 ∨ endsWithStr h.name "\\" = true
      · simp only [hp, if_false, hsj, hdir, if_true]
        split
        · simp [h6]
        · simp [h1]
      · by_cases hsym : fmAnd h.fileMode modeSymlink ≠ 0
        · simp [hp, hsj, hdir, hsym]
        · simp [hp, hsj, hdir, hsym, copy_ok b p h.fileMode h1 h2]

/-- Under an all-succeeding filesystem, the tar entry pass succeeds. -/
theorem tarEntryPass_err_none (b : FSBehavior) (hb : AllSucc b) (loc : String)
    (ren : Option (String → String)) (hs : List Extractor.TarHeader) :
    (Extractor.tarEntryPass b false loc ren hs).err = none := by
  induction hs with
  | nil => rfl
  | cons h t ih =>
    rw [Extractor.tarEntryPass]
    have := tarStep_err_none b hb loc ren h
    simp only [this, Bool.false_eq_true, if_false]
    simp [this, ih]

/-- Under an all-succeeding filesystem, the zip entry pass succeeds. -/
theorem zipEntryPass_err_none (b : FSBehavior) (hb : AllSucc b) (loc : String)
    (ren : Option (String → String)) (hs : List Extractor.ZipHeader) :
    (Extractor.zipEntryPass b false loc ren hs).err = none := by
  induction hs with
  | nil => rfl
  | cons h t ih =>
    rw [Extractor.zipEntryPass]
    have := zipStep_err_none b hb loc ren h
    simp [this, ih]

/-- No tar entry step emits a link or symlink call. -/
theorem tarStep_no_linkops (b : FSBehavior) (c : Bool) (loc : String)
    (ren : Option (String → String)) (h : Extractor.TarHeader) :
    ((Extractor.tarStep b c loc ren h).ops.all fun o => !isLinkOp o) = true := by
  unfold Extractor.tarStep
  by_cases hp : applyRename ren h.name = ""
  · simp [hp, skipStep, isLinkOp]
  · rcases hsj : safeJoin loc (applyRename ren h.name) with e | p
    · simp [hp, hsj, skipStep, isLinkOp]
    · cases hty : h.typeflag
      · simp only [hp, if_false, hsj, hty]
        split <;> simp [isLinkOp]
      · simp only [hp, if_false, hsj, hty]
        simpa using copy_no_linkops b c p h.fileMode
      · simp only [hp, if_false, hsj, hty]
        simpa using copy_no_linkops b c p h.fileMode
      · rcases hsj2 : safeJoin loc (applyRename ren h.linkname) with e2 | n <;>
          simp [hp, hsj, hty, hsj2, skipStep, isLinkOp]
      · simp [hp, hsj, hty, isLinkOp]
      · simp [hp, hsj, hty, skipStep, isLinkOp]

/-- No zip entry step emits a link or symlink call. -/
theorem zipStep_no_linkops (b : FSBehavior) (c : Bool) (loc : String)
    (ren : Option (String → String)) (h : Extractor.ZipHeader) :
    ((Extractor.zipStep b c loc ren h).ops.all fun o => !isLinkOp o) = true := by
  unfold Extractor.zipStep
  by_cases hp : applyRename ren (zipNormName h.name) = ""
  · simp [hp, skipStep, isLinkOp]
  · rcases hsj : safeJoin loc (applyRename ren (zipNormName h.name)) with e | p
    · simp [hp, hsj, skipStep, isLinkOp]
    · by_cases hdir : fmAnd h.fileMode modeDir ≠ 0 ∨ endsWithStr h.name "\\" = true
      · simp only [hp, if_false, hsj, hdir, if_true]
        split
        · split <;> simp [isLinkOp]
        · split <;> simp [isLinkOp]
      · by_cases hsym : fmAnd h.fileMode modeSymlink ≠ 0
        · simp [hp, hsj, hdir, hsym, isLinkOp]
        · simp only [hp, if_false, hsj, hdir, hsym]
          simpa [hsym] using copy_no_linkops b c p h.fileMode

/-- The tar entry pass emits no link or symlink call. -/
theorem tarEntryPass_no_linkops (b : FSBehavior) (c : Bool) (loc : String)
    (ren : Option (String → String)) (hs : List Extractor.TarHeader) :
    ((Extractor.tarEntryPass b c loc ren hs).ops.all fun o => !isLinkOp o) = true := by
  induction hs with
  | nil => cases c <;> rfl
  | cons h t ih =>
    rw [Extractor.tarEntryPass]
    by_cases hc : c = true
    · simp [hc]
    · replace hc : c = false := by simpa using hc
      subst hc
      have hstep := tarStep_no_linkops b false loc ren h
      simp only [Bool.false_eq_true, if_false]
      rcases he : (Extractor.tarStep b false loc ren h).err with _ | e
      · simp only [he]
        simp only [List.all_append, Bool.and_eq_true]
        exact ⟨hstep, ih⟩
      · simpa [he] using hstep

/-- The zip entry pass emits no link or symlink call. -/
theorem zipEntryPass_no_linkops (b : FSBehavior) (c : Bool) (loc : String)
    (ren : Option (String → String)) (hs : List Extractor.ZipHeader) :
    ((Extractor.zipEntryPass b c loc ren hs).ops.all fun o => !isLinkOp o) = true := by
  induction hs with
  | nil => rfl
  | cons h t ih =>
    rw [Extractor.zipEntryPass]
    by_cases hc : c = true
    · simp [hc]
    · replace hc : c = false := by simpa using hc
      subst hc
      have hstep := zipStep_no_linkops b false loc ren h
      simp only [Bool.false_eq_true, if_false]
      rcases he : (Extractor.zipStep b false loc ren h).err with _ | e
      · simp only [he]
        simp only [List.all_append, Bool.and_eq_true]
        exact ⟨hstep, ih⟩
      · simpa [he] using hstep

/-- The placeholder phase performs no symbolic-link creation. -/
theorem placeholderOps_no_symlink (ls : List link) :
    ((placeholderOps ls).all fun o => !isSymlinkOp o) = true := by
  induction ls with
  | nil => rfl
  | cons l t ih =>
    simp only [placeholderOps, List.all_cons, Bool.and_eq_true]
    exact ⟨rfl, rfl, ih⟩

/-- C3: for both formats, with all filesystem calls succeeding and no
cancellation, the journal of an extraction is the entry-pass segment
(which contains no FS.Link or FS.Symlink call), then the hard-link pass,
then, for every pending symbolic link, remove-plus-placeholder creation,
all before the first FS.Symlink call (the placeholder segment creates no
symlink), and finally remove-placeholder-then-symlink for each pending
link in its place. -/
theorem two_phase_link_protocol (b : FSBehavior) (hb : AllSucc b) (loc : String)
    (ren : Option (String → String)) (hs : List Extractor.TarHeader)
    (sk : Bool) (zs : List Extractor.ZipHeader) :
    (Extractor.Tar b false loc ren hs =
      ⟨(Extractor.tarEntryPass b false loc ren hs).ops ++
        hardLinkOps (Extractor.tarEntryPass b false loc ren hs).links ++
        (placeholderOps (Extractor.tarEntryPass b false loc ren hs).symlinks ++
          symlinkOps (Extractor.tarEntryPass b false loc ren hs).symlinks), none⟩) ∧
    ((Extractor.tarEntryPass b false loc ren hs).ops.all fun o => !isLinkOp o) = true ∧
    (Extractor.Zip b false sk (some zs) loc ren =
      ⟨(Extractor.zipEntryPass b false loc ren zs).ops ++
        (placeholderOps (Extractor.zipEntryPass b false loc ren zs).symlinks ++
          symlinkOps (Extractor.zipEntryPass b false loc ren zs).symlinks), none⟩) ∧
    ((Extractor.zipEntryPass b false loc ren zs).ops.all fun o => !isLinkOp o) = true ∧
    (∀ ls, ((placeholderOps ls).all fun o => !isSymlinkOp o) = true) := by
  obtain ⟨h1, h2, h3, h4, h5, h6⟩ := hb
  refine ⟨?_, tarEntryPass_no_linkops b false loc ren hs, ?_,
    zipEntryPass_no_linkops b false loc ren zs, placeholderOps_no_symlink⟩
  · unfold Extractor.Tar
    dsimp only
    rw [tarEntryPass_err_none b ⟨h1, h2, h3, h4, h5, h6⟩ loc ren hs]
    rw [hardLinkPass_ok b h4, extractSymlinks_ok b h2 h3 h5]
  · unfold Extractor.Zip
    have hz := zipEntryPass_err_none b ⟨h1, h2, h3, h4, h5, h6⟩ loc ren zs
    cases sk <;> dsimp only <;>
      simp only [Bool.false_eq_true, if_false, if_true] <;>
      rw [hz, extractSymlinks_ok b h2 h3 h5]

/-- Witness for C3: a concrete archive with a file, a hard link and a
symbolic link, extracted under the all-succeeding filesystem. -/
theorem two_phase_link_protocol_witness :
    AllSucc allOk ∧
    Extractor.Tar allOk false "/dst" none
      [⟨"f.txt", "", Extractor.TarType.reg, 0o644⟩,
       ⟨"hl", "f.txt", Extractor.TarType.hardlink, 0o644⟩,
       ⟨"sl", "../target", Extractor.TarType.symlink, 0o777⟩] =
      ⟨(Extractor.tarEntryPass allOk false "/dst" none
          [⟨"f.txt", "", Extractor.TarType.reg, 0o644⟩,
           ⟨"hl", "f.txt", Extractor.TarType.hardlink, 0o644⟩,
           ⟨"sl", "../target", Extractor.TarType.symlink, 0o777⟩]).ops ++
        hardLinkOps (Extractor.tarEntryPass allOk false "/dst" none
          [⟨"f.txt", "", Extractor.TarType.reg, 0o644⟩,
           ⟨"hl", "f.txt", Extractor.TarType.hardlink, 0o644⟩,
           ⟨"sl", "../target", Extractor.TarType.symlink, 0o777⟩]).links ++
        (placeholderOps (Extractor.tarEntryPass allOk false "/dst" none
          [⟨"f.txt", "", Extractor.TarType.reg, 0o644⟩,
           ⟨"hl", "f.txt", Extractor.TarType.hardlink, 0o644⟩,
           ⟨"sl", "../target", Extractor.TarType.symlink, 0o777⟩]).symlinks ++
          symlinkOps (Extractor.tarEntryPass allOk false "/dst" none
          [⟨"f.txt", "", Extractor.TarType.reg, 0o644⟩,
           ⟨"hl", "f.txt", Extractor.TarType.hardlink, 0o644⟩,
           ⟨"sl", "../target", Extractor.TarType.symlink, 0o777⟩]).symlinks), none⟩ :=
  ⟨allOk_allSucc,
   (two_phase_link_protocol allOk allOk_allSucc "/dst" none
      [⟨"f.txt", "", Extractor.TarType.reg, 0o644⟩,
       ⟨"hl", "f.txt", Extractor.TarType.hardlink, 0o644⟩,
       ⟨"sl", "../target", Extractor.TarType.symlink, 0o777⟩] false []).1⟩

/-! ## C4: recorded pending-link targets -/

/-- C4: a tar hard-link entry records target safeJoin(root, rename(raw
link target)) and is skipped when that join fails; a symbolic-link entry
(tar and zip) records the raw link text (tar Linkname / zip entry
content), neither renamed nor safety-joined, and the resolution phase
passes exactly that string to FS.Symlink. -/
theorem pending_link_targets (b : FSBehavior) (c : Bool) (loc : String)
    (ren : Option (String → String)) (h : Extractor.TarHeader)
    (z : Extractor.ZipHeader) (p : String) :
    (h.typeflag = Extractor.TarType.hardlink →
      applyRename ren h.name ≠ "" →
      safeJoin loc (applyRename ren h.name) = Except.ok p →
      ((∀ n, safeJoin loc (applyRename ren h.linkname) = Except.ok n →
          Extractor.tarStep b c loc ren h = ⟨[], [⟨n, p⟩], [], none⟩) ∧
       (∀ e, safeJoin loc (applyRename ren h.linkname) = Except.error e →
          Extractor.tarStep b c loc ren h = skipStep))) ∧
    (h.typeflag = Extractor.TarType.symlink →
      applyRename ren h.name ≠ "" →
      safeJoin loc (applyRename ren h.name) = Except.ok p →
      Extractor.tarStep b c loc ren h = ⟨[], [], [⟨h.linkname, p⟩], none⟩) ∧
    (fmAnd z.fileMode modeDir = 0 →
      endsWithStr z.name "\\" = false →
      fmAnd z.fileMode modeSymlink ≠ 0 →
      applyRename ren (zipNormName z.name) ≠ "" →
      safeJoin loc (applyRename ren (zipNormName z.name)) = Except.ok p →
      Extractor.zipStep b c loc ren z = ⟨[], [], [⟨z.content, p⟩], none⟩) ∧
    (∀ ls, (∀ o n, b.symlinkOk o n = true) →
      Extractor.symlinkPass b false ls = (symlinkOps ls, none)) := by
  refine ⟨?_, ?_, ?_, fun ls hsym => symlinkPass_ok b hsym ls⟩
  · intro hty hne hsj
    constructor
    · intro n hsj2
      unfold Extractor.tarStep
      simp [hne, hsj, hty, hsj2]
    · intro e hsj2
      unfold Extractor.tarStep
      simp [hne, hsj, hty, hsj2]
  · intro hty hne hsj
    unfold Extractor.tarStep
    simp [hne, hsj, hty]
  · intro hnd hnbs hsym hne hsj
    unfold Extractor.zipStep
    simp [hne, hsj, hnd, hnbs, hsym]

/-- Witness for C4: a concrete hard link (target safety-joined) and a
concrete symbolic link (raw relative target recorded verbatim). -/
theorem pending_link_targets_witness :
    Extractor.tarStep allOk false "/d" none
      ⟨"hl", "f", Extractor.TarType.hardlink, 420⟩ =
      ⟨[], [⟨"/d/f", "/d/hl"⟩], [], none⟩ ∧
    Extractor.tarStep allOk false "/d" none
      ⟨"sl", "../t", Extractor.TarType.symlink, 420⟩ =
      ⟨[], [], [⟨"../t", "/d/sl"⟩], none⟩ :=
  ⟨((pending_link_targets allOk false "/d" none
        ⟨"hl", "f", Extractor.TarType.hardlink, 420⟩ ⟨"", 0, ""⟩ "/d/hl").1
      rfl (by decide) (by decide)).1 "/d/f" (by decide),
   (pending_link_targets allOk false "/d" none
        ⟨"sl", "../t", Extractor.TarType.symlink, 420⟩ ⟨"", 0, ""⟩ "/d/sl").2.1
      rfl (by decide) (by decide)⟩

/-! ## C5: failures in the link-resolution phase are fatal -/

/-- The hard-link pass distributes over an all-succeeding prefix. -/
theorem hardLinkPass_append (b : FSBehavior) (good tl : List link)
    (hg : ∀ l ∈ good, b.linkOk l.Name l.Path = true) :
    Extractor.hardLinkPass b false (good ++ tl) =
      (hardLinkOps good ++ (Extractor.hardLinkPass b false tl).1,
       (Extractor.hardLinkPass b false tl).2) := by
  induction good with
  | nil => simp [hardLinkOps]
  | cons l t ih =>
    have hl := hg l (List.mem_cons_self l t)
    simp [Extractor.hardLinkPass, hl, hardLinkOps,
      ih (fun x hx => hg x (List.mem_cons_of_mem l hx))]

/-- The placeholder phase distributes over an all-succeeding prefix. -/
theorem placeholderPass_append (b : FSBehavior) (good tl : List link)
    (hg : ∀ l ∈ good, b.openFileOk l.Path 0o666 = true ∧ b.closeOk l.Path = true) :
    Extractor.placeholderPass b false (good ++ tl) =
      (placeholderOps good ++ (Extractor.placeholderPass b false tl).1,
       (Extractor.placeholderPass b false tl).2) := by
  induction good with
  | nil => simp [placeholderOps]
  | cons l t ih =>
    have hl := hg l (List.mem_cons_self l t)
    simp [Extractor.placeholderPass, hl.1, hl.2, placeholderOps,
      ih (fun x hx => hg x (List.mem_cons_of_mem l hx))]

/-- The symlink-resolution phase distributes over an all-succeeding prefix. -/
theorem symlinkPass_append (b : FSBehavior) (good tl : List link)
    (hg : ∀ l ∈ good, b.symlinkOk l.Name l.Path = true) :
    Extractor.symlinkPass b false (good ++ tl) =
      (symlinkOps good ++ (Extractor.symlinkPass b false tl).1,
       (Extractor.symlinkPass b false tl).2) := by
  induction good with
  | nil => simp [symlinkOps]
  | cons l t ih =>
    have hl := hg l (List.mem_cons_self l t)
    simp [Extractor.symlinkPass, hl, symlinkOps,
      ih (fun x hx => hg x (List.mem_cons_of_mem l hx))]

/-- C5: once a queued hard link, a symlink placeholder, or a symbolic
link fails to be created, the pass stops at that link (the journal shows
nothing for the links queued after it) and the error is returned; the
whole Tar call then returns that error. -/
theorem link_phase_failures_fatal :
    (∀ (b : FSBehavior) (good : List link) (bad : link) (rest : List link),
       (∀ l ∈ good, b.linkOk l.Name l.Path = true) →
       b.linkOk bad.Name bad.Path = false →
       Extractor.hardLinkPass b false (good ++ bad :: rest) =
         (hardLinkOps good ++ [FSOp.remove bad.Path, FSOp.link bad.Name bad.Path],
          some ("Create link " ++ bad.Path))) ∧
    (∀ (b : FSBehavior) (good : List link) (bad : link) (rest : List link),
       (∀ l ∈ good, b.openFileOk l.Path 0o666 = true ∧ b.closeOk l.Path = true) →
       b.openFileOk bad.Path 0o666 = false →
       Extractor.extractSymlinks b false (good ++ bad :: rest) =
         (placeholderOps good ++ [FSOp.remove bad.Path, FSOp.openFile bad.Path 0o666],
          some ("creating symlink placeholder " ++ bad.Path))) ∧
    (∀ (b : FSBehavior) (good : List link) (bad : link) (rest : List link),
       (∀ l ∈ good ++ bad :: rest,
          b.openFileOk l.Path 0o666 = true ∧ b.closeOk l.Path = true) →
       (∀ l ∈ good, b.symlinkOk l.Name l.Path = true) →
       b.symlinkOk bad.Name bad.Path = false →
       Extractor.extractSymlinks b false (good ++ bad :: rest) =
         (placeholderOps (good ++ bad :: rest) ++
            (symlinkOps good ++ [FSOp.remove bad.Path, FSOp.symlink bad.Name bad.Path]),
          some ("Create link " ++ bad.Path))) ∧
    (∀ (b : FSBehavior) loc ren hs e,
       (Extractor.tarEntryPass b false loc ren hs).err = none →
       (Extractor.hardLinkPass b false
          (Extractor.tarEntryPass b false loc ren hs).links).2 = some e →
       Extractor.Tar b false loc ren hs =
         ⟨(Extractor.tarEntryPass b false loc ren hs).ops ++
            (Extractor.hardLinkPass b false
              (Extractor.tarEntryPass b false loc ren hs).links).1,
          some e⟩) := by
  refine ⟨?_, ?_, ?_, ?_⟩
  · intro b good bad rest hg hf
    rw [hardLinkPass_append b good (bad :: rest) hg]
    simp [Extractor.hardLinkPass, hf]
  · intro b good bad rest hg hf
    unfold Extractor.extractSymlinks
    rw [placeholderPass_append b good (bad :: rest) hg]
    simp [Extractor.placeholderPass, hf]
  · intro b good bad rest hph hg hf
    unfold Extractor.extractSymlinks
    have hphall : Extractor.placeholderPass b false (good ++ bad :: rest) =
        (placeholderOps (good ++ bad :: rest), none) := by
      have h0 := placeholderPass_append b (good ++ bad :: rest) [] hph
      simpa [Extractor.placeholderPass] using h0
    rw [hphall]
    rw [symlinkPass_append b good (bad :: rest) hg]
    simp [Extractor.symlinkPass, hf]
  · intro b loc ren hs e h1 h2
    unfold Extractor.Tar
    dsimp only
    rw [h1, h2]

/-- Witness for C5: under a filesystem whose Link always fails, the pass
stops at the first queued hard link, never touching the second. -/
theorem link_phase_failures_fatal_witness :
    Extractor.hardLinkPass
      ⟨fun _ _ => true, fun _ _ => true, fun _ => true, fun _ _ => false,
       fun _ _ => true, fun _ => false, fun _ _ => true⟩ false
      ([] ++ (⟨"/d/f", "/d/hl"⟩ : link) :: [⟨"/d/g", "/d/hl2"⟩]) =
      (hardLinkOps [] ++ [FSOp.remove "/d/hl", FSOp.link "/d/f" "/d/hl"],
       some ("Create link " ++ "/d/hl")) :=
  link_phase_failures_fatal.1
    ⟨fun _ _ => true, fun _ _ => true, fun _ => true, fun _ _ => false,
     fun _ _ => true, fun _ => false, fun _ _ => true⟩
    [] ⟨"/d/f", "/d/hl"⟩ [⟨"/d/g", "/d/hl2"⟩] (by simp) rfl

/-! ## C6: behavior under a pre-raised or mid-stream cancellation signal -/

/-- Reading with a never-raised signal copies everything. -/
theorem copyCancelReads_never (chunks : List Nat) :
    ∀ i w, copyCancelReads (fun _ => false) i w chunks = (w + chunks.sum, none) := by
  induction chunks with
  | nil => intro i w; simp [copyCancelReads]
  | cons c rest ih =>
    intro i w
    rw [copyCancelReads]
    simp only [Bool.false_eq_true, if_false, ih (i + 1) (w + c), List.sum_cons]
    rw [Nat.add_assoc]

/-- Reading with a signal raised from the `k`-th read on delivers exactly
the chunks before `k` and then fails, or everything when the source ends
first. -/
theorem copyCancelReads_from (k : Nat) (chunks : List Nat) :
    ∀ i w, copyCancelReads (fun j => decide (k ≤ j)) i w chunks =
      if k ≤ i + chunks.length then
        (w + ((chunks.take (k - i)).sum), some "interrupted")
      else (w + chunks.sum, none) := by
  induction chunks with
  | nil =>
    intro i w
    by_cases hk : k ≤ i <;> simp [copyCancelReads, hk]
  | cons c rest ih =>
    intro i w
    by_cases hk : k ≤ i
    · have h2 : k - i = 0 := Nat.sub_eq_zero_of_le hk
      simp [copyCancelReads, hk, h2]
      rw [if_pos (show k ≤ i + (rest.length + 1) by omega)]
    · rw [copyCancelReads]
      simp only [decide_eq_true_eq, if_neg hk]
      rw [ih (i + 1) (w + c)]
      by_cases hk2 : k ≤ i + 1 + rest.length
      · have h1 : k ≤ i + (c :: rest).length := by simp only [List.length_cons]; omega
        have h3 : k - i = (k - (i + 1)) + 1 := by omega
        simp only [if_pos hk2, if_pos h1, h3, List.take_succ_cons, List.sum_cons]
        rw [Nat.add_assoc]
      · have h1 : ¬k ≤ i + (c :: rest).length := by simp only [List.length_cons]; omega
        simp only [if_neg hk2, if_neg h1, List.sum_cons]
        rw [Nat.add_assoc]

/-- The copy loop with a signal raised from the `k`-th read on. -/
theorem copyCancel_raised (k : Nat) (chunks : List Nat) :
    copyCancel (fun j => decide (k ≤ j)) chunks =
      if k ≤ chunks.length then ((chunks.take k).sum, some "interrupted")
      else (chunks.sum, none) := by
  unfold copyCancel
  rw [copyCancelReads_from k chunks 0 0]
  simp

/-- C6 (amended): with the signal already raised before the call, Tar
returns Interrupted having performed no filesystem call; Zip on a
seekable stream does the same as soon as the archive lists an entry (an
empty archive returns success, also without calls); Zip on a
non-seekable stream buffers nothing, so the zip reader fails and the
call returns the zip-read error (not Interrupted), again with no calls;
a gz stream holding a tar gets Tar's Interrupted with no calls, while a
single-file gz creates the parent directory and the empty destination
file before the copy loop observes the signal.  A signal first raised at
the `k`-th chunk read stops the copy with exactly the bytes of the
earlier chunks written; an unraised signal copies everything. -/
theorem precancel_behavior :
    (∀ b loc ren hs, Extractor.Tar b true loc ren hs = ⟨[], some "interrupted"⟩) ∧
    (∀ b loc ren h t,
      Extractor.Zip b true true (some (h :: t)) loc ren = ⟨[], some "interrupted"⟩) ∧
    (∀ b parse loc ren,
      Extractor.Zip b true false parse loc ren = ⟨[], some "Read the zip file"⟩) ∧
    (∀ b loc ren,
      Extractor.Zip b true true none loc ren = ⟨[], some "Read the zip file"⟩) ∧
    (∀ b loc ren, Extractor.Zip b true true (some []) loc ren = ⟨[], none⟩) ∧
    (∀ b loc ren hs,
      Extractor.Gz b true true none (Extractor.InnerStream.tarStream hs) loc ren =
        ⟨[], some "interrupted"⟩) ∧
    (∀ b loc ren, AllSucc b →
      Extractor.Gz b true true none Extractor.InnerStream.file loc ren =
        ⟨[FSOp.mkdirAll (filepathDir loc) (fmOr (fmOr 0o666 modeDir) 0o100),
          FSOp.remove loc, FSOp.openFile loc 0o666], some "interrupted"⟩) ∧
    (∀ k chunks, k ≤ chunks.length →
      copyCancel (fun j => decide (k ≤ j)) chunks =
        ((chunks.take k).sum, some "interrupted")) ∧
    (∀ chunks, copyCancel (fun _ => false) chunks = (chunks.sum, none)) := by
  have htar : ∀ b loc ren hs,
      Extractor.Tar b true loc ren hs = ⟨[], some "interrupted"⟩ := by
    intro b loc ren hs
    cases hs <;> rfl
  refine ⟨htar, ?_, ?_, ?_, ?_, ?_, ?_, ?_, ?_⟩
  · intro b loc ren h t; rfl
  · intro b parse loc ren; rfl
  · intro b loc ren; rfl
  · intro b loc ren; rfl
  · intro b loc ren hs
    simpa [Extractor.Gz] using htar b loc ren hs
  · intro b loc ren hb
    obtain ⟨h1, h2, _, _, _, _⟩ := hb
    unfold Extractor.Gz Extractor.copy
    simp [h1, h2]
  · intro k chunks hk
    rw [copyCancel_raised]
    simp [hk]
  · intro chunks
    unfold copyCancel
    simpa using copyCancelReads_never chunks 0 0

/-- Counterexample to C6 as stated: with a pre-raised signal, Zip on a
non-seekable stream returns the zip-read error, not Interrupted. -/
theorem precancel_counterexample :
    Extractor.Zip allOk true false (some [⟨"a.txt", 420, ""⟩]) "/dst" none =
      ⟨[], some "Read the zip file"⟩ ∧
    (some "Read the zip file" : Option String) ≠ some "interrupted" :=
  ⟨rfl, by decide⟩

/-- Witness for C6 (amended): concrete single-file gz run and a concrete
mid-stream cancellation after two chunks. -/
theorem precancel_behavior_witness :
    AllSucc allOk ∧
    Extractor.Gz allOk true true none Extractor.InnerStream.file "/out/f.bin" none =
      ⟨[FSOp.mkdirAll (filepathDir "/out/f.bin") (fmOr (fmOr 0o666 modeDir) 0o100),
        FSOp.remove "/out/f.bin", FSOp.openFile "/out/f.bin" 0o666],
       some "interrupted"⟩ ∧
    copyCancel (fun j => decide (2 ≤ j)) [5, 7, 11] = (12, some "interrupted") :=
  ⟨allOk_allSucc,
   precancel_behavior.2.2.2.2.2.2.1 allOk "/out/f.bin" none allOk_allSucc,
   (precancel_behavior.2.2.2.2.2.2.2.1 2 [5, 7, 11] (by decide)).trans (by decide)⟩

/-! ## C7: directory-entry modes -/

/-- Counterexample to C7 as stated: a tar directory entry whose mode has
no execute bit is created through MkdirAll with exactly that mode — tar
directories do not receive an added execute bit. -/
theorem dir_mode_counterexample :
    Extractor.Tar allOk false "/dst" none
      [⟨"d", "", Extractor.TarType.dir, fmOr 0o600 modeDir⟩] =
      ⟨[FSOp.mkdirAll "/dst/d" (fmOr 0o600 modeDir)], none⟩ ∧
    fmAnd (fmOr 0o600 modeDir) 0o111 = 0 := by decide

/-- C7 (amended): a tar directory entry is created via FS.MkdirAll with
the entry's FileInfo mode unchanged (no execute bit added); a zip
directory entry uses the declared mode plus ModeDir plus the owner
execute bit, and when FS.Stat reports the output path already exists the
permissions are updated via FS.Chmod with that mode instead of calling
MkdirAll, and the entry does not fail. -/
theorem dir_mode_behavior (b : FSBehavior) (c : Bool) (loc : String)
    (ren : Option (String → String)) (h : Extractor.TarHeader)
    (z : Extractor.ZipHeader) (p : String) :
    (h.typeflag = Extractor.TarType.dir →
      applyRename ren h.name ≠ "" →
      safeJoin loc (applyRename ren h.name) = Except.ok p →
      (Extractor.tarStep b c loc ren h).ops = [FSOp.mkdirAll p h.fileMode]) ∧
    ((fmAnd z.fileMode modeDir ≠ 0 ∨ endsWithStr z.name "\\" = true) →
      applyRename ren (zipNormName z.name) ≠ "" →
      safeJoin loc (applyRename ren (zipNormName z.name)) = Except.ok p →
      ((b.statExists p = false →
          (Extractor.zipStep b c loc ren z).ops =
            [FSOp.stat p, FSOp.mkdirAll p (fmOr (fmOr z.fileMode modeDir) 0o100)]) ∧
       (b.statExists p = true →
          (Extractor.zipStep b c loc ren z).ops =
            [FSOp.stat p, FSOp.chmod p (fmOr (fmOr z.fileMode modeDir) 0o100)] ∧
          (b.chmodOk p (fmOr (fmOr z.fileMode modeDir) 0o100) = true →
            (Extractor.zipStep b c loc ren z).err = none)))) := by
  constructor
  · intro hty hne hsj
    unfold Extractor.tarStep
    simp only [hne, if_false, hsj, hty]
    split <;> rfl
  · intro hdir hne hsj
    constructor
    · intro hst
      unfold Extractor.zipStep
      simp only [hne, if_false, hsj, hdir, if_pos hdir, hst]
      simp [hst]
      split <;> rfl
    · intro hst
      unfold Extractor.zipStep
      simp only [hne, if_false, hsj, if_pos hdir, hst]
      constructor
      · simp [hst]
        split <;> rfl
      · intro hch
        simp [hst, hch]

/-- Witness for C7 (amended): tar directory entry at a concrete mode with
no execute bit. -/
theorem dir_mode_behavior_witness :
    (Extractor.tarStep allOk false "/dst" none
       ⟨"d", "", Extractor.TarType.dir, fmOr 0o600 modeDir⟩).ops =
      [FSOp.mkdirAll "/dst/d" (fmOr 0o600 modeDir)] :=
  (dir_mode_behavior allOk false "/dst" none
      ⟨"d", "", Extractor.TarType.dir, fmOr 0o600 modeDir⟩ ⟨"", 0, ""⟩ "/dst/d").1
    rfl (by decide) (by decide)

/-! ## C8: zip backslash normalization -/

/-- C8: backslashes in a zip stored name are replaced by forward slashes
before rename and the safety join (which both run on the normalized
name), and a trailing backslash forces the directory branch even when
the header mode does not mark a directory. -/
theorem zip_backslash_handling (b : FSBehavior) (c : Bool) (loc : String)
    (ren : Option (String → String)) (z : Extractor.ZipHeader) (p : String) :
    (endsWithStr z.name "\\" = true →
      fmAnd z.fileMode modeDir = 0 →
      applyRename ren (zipNormName z.name) ≠ "" →
      safeJoin loc (applyRename ren (zipNormName z.name)) = Except.ok p →
      b.statExists p = false →
      (Extractor.zipStep b c loc ren z).ops =
        [FSOp.stat p, FSOp.mkdirAll p (fmOr (fmOr z.fileMode modeDir) 0o100)] ∧
      (Extractor.zipStep b c loc ren z).symlinks = []) ∧
    (applyRename ren (zipNormName z.name) = "" →
      Extractor.zipStep b c loc ren z = skipStep) ∧
    (∀ e, safeJoin loc (applyRename ren (zipNormName z.name)) = Except.error e →
      Extractor.zipStep b c loc ren z = skipStep) ∧
    Extractor.Zip allOk false true (some [⟨"a\\b\\", 0o644, ""⟩]) "/d" none =
      ⟨[FSOp.stat "/d/a/b",
        FSOp.mkdirAll "/d/a/b" (fmOr (fmOr 0o644 modeDir) 0o100)], none⟩ := by
  refine ⟨?_, ?_, ?_, by decide⟩
  · intro hbs hnd hne hsj hst
    unfold Extractor.zipStep
    simp only [hne, if_false, hsj, hbs]
    simp [hst]
    split <;> simp
  · intro hne
    unfold Extractor.zipStep
    simp [hne]
  · intro e hsj
    unfold Extractor.zipStep
    by_cases hne : applyRename ren (zipNormName z.name) = ""
    · simp [hne]
    · simp [hne, hsj]

/-- Witness for C8: a stored name with backslash separators and a
trailing backslash, no directory bit in the mode. -/
theorem zip_backslash_handling_witness :
    (Extractor.zipStep allOk false "/d" none ⟨"a\\b\\", 0o644, ""⟩).ops =
      [FSOp.stat "/d/a/b",
       FSOp.mkdirAll "/d/a/b" (fmOr (fmOr 0o644 modeDir) 0o100)] ∧
    (Extractor.zipStep allOk false "/d" none ⟨"a\\b\\", 0o644, ""⟩).symlinks = [] :=
  (zip_backslash_handling allOk false "/d" none ⟨"a\\b\\", 0o644, ""⟩ "/d/a/b").1
    (by decide) (by decide) (by decide) (by decide) rfl

/-! ## C9: Archive swallows the detection read error -/

/-- C9: when the initial 512-byte read fails with a non-EOF error, the
annotated detection error is discarded (its value is never returned) and
Archive instead answers with the unsupported-format error of the switch
on the unknown kind, for every such read error. -/
theorem archive_read_error_swallowed :
    (∀ e detected, Extractor.Archive (some e) detected =
      Except.error ("Not a supported archive: " ++ Extractor.typesUnknownExt)) ∧
    Extractor.typesUnknownExt = "unknown" ∧
    Extractor.Archive none "tar" = Except.ok Extractor.ArchiveRoute.tarR ∧
    Extractor.Archive none "rar" =
      Except.error ("Not a supported archive: " ++ "rar") :=
  ⟨fun _ _ => rfl, rfl, rfl, rfl⟩

/-! ## C10: unhandled tar type flags are silently ignored -/

/-- C10: a tar entry whose type flag is none of directory, regular file,
hard link or symbolic link contributes no filesystem call and no pending
link, and extraction proceeds as if the entry were absent. -/
theorem tar_unknown_typeflag_ignored (b : FSBehavior) (c : Bool) (loc : String)
    (ren : Option (String → String)) (h : Extractor.TarHeader)
    (rest : List Extractor.TarHeader)
    (hty : h.typeflag = Extractor.TarType.other) :
    Extractor.tarStep b c loc ren h = skipStep ∧
    Extractor.Tar b c loc ren (h :: rest) = Extractor.Tar b c loc ren rest := by
  have hstep : Extractor.tarStep b c loc ren h = skipStep := by
    unfold Extractor.tarStep
    by_cases hp : applyRename ren h.name = ""
    · simp [hp]
    · rcases hsj : safeJoin loc (applyRename ren h.name) with e | p <;>
        simp [hp, hsj, hty]
  refine ⟨hstep, ?_⟩
  unfold Extractor.Tar
  have hpass : Extractor.tarEntryPass b c loc ren (h :: rest) =
      Extractor.tarEntryPass b c loc ren rest := by
    by_cases hc : c = true
    · subst hc
      cases rest <;> rfl
    · replace hc : c = false := by simpa using hc
      subst hc
      conv_lhs => rw [Extractor.tarEntryPass]
      rw [hstep]
      simp [skipStep]
  rw [hpass]

/-- Witness for C10: a FIFO-like entry is ignored. -/
theorem tar_unknown_typeflag_ignored_witness :
    Extractor.tarStep allOk false "/d" none
      ⟨"fifo", "", Extractor.TarType.other, 420⟩ = skipStep ∧
    Extractor.Tar allOk false "/d" none
      [⟨"fifo", "", Extractor.TarType.other, 420⟩] =
      Extractor.Tar allOk false "/d" none [] :=
  tar_unknown_typeflag_ignored allOk false "/d" none
    ⟨"fifo", "", Extractor.TarType.other, 420⟩ [] rfl
